import Mathlib

/-!
Shallow embedding of the retrieval orchestration core of the RAGnition
repository (src/retrieval/...), together with theorems settling the
specification claims about it.

Python strings are modelled by Lean `String`; Python sets of tokens by
`Finset String`; Python float arithmetic on scores by exact rationals `ℚ`;
the external vector-search backend by an oracle function; fallible external
calls by `Except`.  Python's stable `sorted` / `list.sort` is modelled by
`List.insertionSort`, which is a stable sort (any two stable sorts agree, so
this is extensionally faithful to CPython's Timsort).
-/

namespace RAG

/-- Python `s.lower()` (ASCII case folding, like the corpus queries use). -/
def lowerStr (s : String) : String := ⟨s.data.map Char.toLower⟩

/-- Helper for whitespace splitting: returns the word currently being built
(reading from the left) and the words of the remainder. -/
def pyWordsAux (cs : List Char) : List Char × List (List Char) :=
  match cs with
  | [] => ([], [])
  | c :: rest =>
    let p := pyWordsAux rest
    if c.isWhitespace then
      ([], if p.1 = [] then p.2 else p.1 :: p.2)
    else
      (c :: p.1, p.2)

/-- Python `s.split()` with no argument: split on whitespace runs,
dropping empty words. -/
def pyWords (cs : List Char) : List (List Char) :=
  let p := pyWordsAux cs
  if p.1 = [] then p.2 else p.1 :: p.2

/-- Python `set(s.lower().split())`: lower-case, split on whitespace,
collapse the words to a set. -/
def pyTokens (s : String) : Finset String :=
  ((pyWords (lowerStr s).data).map (fun w => (⟨w⟩ : String))).toFinset

/-- Python's substring test `pat in s` on explicit character lists. -/
def containsSub (s pat : List Char) : Bool :=
  (List.range (s.length + 1)).any (fun i => pat.isPrefixOf (s.drop i))

/-- Embeds `pat in q` for strings (no case folding; callers lower-case first,
mirroring the sources). -/
def strContainsLit (q pat : String) : Bool :=
  containsSub q.data pat.data

/-! ## src/retrieval/critic.py -/

/-- Result record of `evaluate_retrieval` (a Python dict with keys
`score` and `decision`). -/
structure CritiqueResult where
  score : ℚ
  decision : String
deriving DecidableEq, Repr

/-- Embeds `evaluate_retrieval(query, docs)` from src/retrieval/critic.py. -/
def evaluate_retrieval (query : String) (docs : List String) : CritiqueResult :=
  if docs = [] then
    { score := 0, decision := "retry" }
  else
    let q_words := pyTokens query
    let overlap_scores := (docs.take 5).map (fun d =>
      let d_words := pyTokens d
      (((q_words ∩ d_words).card : ℚ) / ((q_words.card : ℚ) + 1)))
    let score := overlap_scores.sum / (overlap_scores.length : ℚ)
    { score := score, decision := if score > 15 / 100 then "good" else "retry" }

/-! ## src/retrieval/query_rewriter.py -/

/-- Embeds `rewrite_query(query, attempt)` from src/retrieval/query_rewriter.py.
The attempt counter is a Python `int`, so it is modelled by `Int`. -/
def rewrite_query (query : String) (attempt : Int) : String :=
  if attempt = 1 then query ++ " detailed explanation"
  else if attempt = 2 then query ++ " research paper"
  else query ++ " methodology results figures tables"

/-! ## src/retrieval/planner.py and src/retrieval/agentic_pipeline.py -/

/-- The four retrieval strategies of the planner / tool registry. -/
inductive Strategy where
  | table
  | figure
  | semantic
  | hybrid
deriving DecidableEq, Repr

/-- Embeds `plan(query)["strategy"]` from src/retrieval/planner.py: ordered
substring checks on the lower-cased query, first match wins. -/
def plan (query : String) : Strategy :=
  let q := lowerStr query
  if strContainsLit q "table" || strContainsLit q "compare" || strContainsLit q "results" then
    Strategy.table
  else if strContainsLit q "figure" || strContainsLit q "diagram" then
    Strategy.figure
  else if strContainsLit q "explain" || strContainsLit q "method" then
    Strategy.semantic
  else
    Strategy.hybrid

/-- One record of `RetrievalMemory.history`: `{"step": ..., "strategy": ...}`. -/
structure MemEntry where
  step : Nat
  strategy : Strategy
deriving DecidableEq, Repr

/-- The `for step in range(max_steps)` loop body of `run_agentic_retrieval`
(src/retrieval/agentic_pipeline.py), restricted to its effect on
`memory.history`.  `fuel` is the number of remaining iterations and `step`
the Python loop variable.  The dispatched tools influence only
`final_results`, never the trace or the control flow, so they are elided. -/
def run_agentic_steps (query : String) : Nat → Nat → List MemEntry → List MemEntry
  | 0, _, mem => mem
  | fuel + 1, step, mem =>
    let strategy := plan query
    let mem' := mem ++ [⟨step + 1, strategy⟩]
    if strategy ≠ Strategy.hybrid then
      mem' ++ [⟨step + 1, Strategy.hybrid⟩]
    else
      run_agentic_steps query fuel (step + 1) mem'

/-- Embeds `run_agentic_retrieval(collection, query, max_steps)`'s final
`memory.history` (src/retrieval/agentic_pipeline.py). -/
def run_agentic_retrieval (query : String) (max_steps : Nat := 2) : List MemEntry :=
  run_agentic_steps query max_steps 0 []

/-! ## src/retrieval/hybrid_retriever.py and src/retrieval/adaptive_retriever.py -/

/-- A metadata mapping (Python dict of string keys/values). -/
abbrev Meta := List (String × String)

/-- Result of one `collection.query(...)` call: parallel `documents` /
`metadatas` arrays (the external contract promises equal lengths). -/
structure QueryRes where
  documents : List String
  metadatas : List Meta
deriving DecidableEq, Repr

/-- The vector-search backend as an oracle: query text and `n_results` in,
a `QueryRes` out. -/
abbrev Collection := String → Nat → QueryRes

/-- One step of the `unique` dict building in `hybrid_retrieve`: a pair is
kept only if its document content is not already a key. -/
def insertUnique (acc : List (String × Meta)) (p : String × Meta) : List (String × Meta) :=
  if acc.any (fun q => q.1 = p.1) then acc else acc ++ [p]

/-- Embeds `hybrid_retrieve(collection, expanded_queries, top_k)` from
src/retrieval/hybrid_retriever.py: one search per query variant,
concatenate, deduplicate by exact content via an insertion-ordered dict. -/
def hybrid_retrieve (collection : Collection) (expanded_queries : List String)
    (top_k : Nat := 8) : List String × List Meta :=
  let merged_docs := (expanded_queries.map (fun q => (collection q top_k).documents)).flatten
  let merged_meta := (expanded_queries.map (fun q => (collection q top_k).metadatas)).flatten
  let unique := (merged_docs.zip merged_meta).foldl insertUnique []
  (unique.map Prod.fst, unique.map Prod.snd)

/-- First-occurrence deduplication relative to a set of already-seen keys
(the claim's "each distinct content exactly once, in first-seen order"). -/
def firstDedupFrom (seen : List String) : List String → List String
  | [] => []
  | d :: rest =>
    if d ∈ seen then firstDedupFrom seen rest
    else d :: firstDedupFrom (d :: seen) rest

/-- First-occurrence deduplication of a list of document contents. -/
def firstDedup (l : List String) : List String := firstDedupFrom [] l

/-- An optional `where` filter of a search call. -/
abbrev Filters := List (String × String)

/-- A fallible vector-search backend: query text, `n_results`, optional
`where` filter; a raised Python exception is `Except.error`. -/
abbrev CollectionE := String → Nat → Option Filters → Except String QueryRes

/-- Embeds `adaptive_retrieve(collection, analysis, top_k)` from
src/retrieval/adaptive_retriever.py: try the filtered search; only on an
exception fall back to the same query without filters. -/
def adaptive_retrieve (collection : CollectionE) (query : String) (filters : Filters)
    (top_k : Nat := 8) : Except String QueryRes :=
  match collection query top_k (some filters) with
  | Except.ok results => Except.ok results
  | Except.error _ => collection query top_k none

/-- The lexical overlap the Critic assigns one candidate (the claim's
`|queryTokens ∩ candidateTokens| / (|queryTokens| + 1)`). -/
def lexOverlap (query d : String) : ℚ :=
  ((pyTokens query ∩ pyTokens d).card : ℚ) / ((pyTokens query).card + 1)

/-- C2: the Critic returns score 0.0 and decision `retry` on an empty
candidate list, and for any non-empty list decides `good` iff the average
lexical overlap over the first at-most-5 candidates is strictly greater
than 0.15. -/
theorem critic_evaluate_spec (query : String) (docs : List String) :
    evaluate_retrieval query [] = ⟨0, "retry"⟩ ∧
    (docs ≠ [] →
      ((evaluate_retrieval query docs).decision = "good" ↔
        ((docs.take 5).map (lexOverlap query)).sum / (((min 5 docs.length : ℕ)) : ℚ) >
          15 / 100)) := by
  constructor
  · simp [evaluate_retrieval]
  · intro h
    have hfun :
        (fun d => (((pyTokens query ∩ pyTokens d).card : ℚ) / ((pyTokens query).card + 1))) =
          lexOverlap query := rfl
    simp only [evaluate_retrieval, if_neg h, hfun, List.length_map, List.length_take]
    by_cases hc :
        ((docs.take 5).map (lexOverlap query)).sum / (((min 5 docs.length : ℕ)) : ℚ) > 15 / 100
    · simp [hc]
    · simp [hc]

/-- C2 witness: the spec's own worked example, `query = "cat"`,
`docs = ["a cat sat"]`: the overlap is `1/2 > 0.15`, so `good`. -/
theorem critic_evaluate_spec_witness :
    (["a cat sat"] : List String) ≠ [] ∧
    (evaluate_retrieval "cat" ["a cat sat"]).decision = "good" := by
  refine ⟨by decide, ?_⟩
  rw [((critic_evaluate_spec "cat" ["a cat sat"]).2 (by decide))]
  have h1 : (pyTokens "cat" ∩ pyTokens "a cat sat").card = 1 := by decide
  have h2 : (pyTokens "cat").card = 1 := by decide
  simp only [List.take, List.map, List.sum_cons, List.sum_nil, lexOverlap, h1, h2,
    List.length_cons, List.length_nil]
  norm_num

/-- C10: for every attempt number other than 1 and 2 the rewriter appends
`" methodology results figures tables"`, and every rewrite output extends
the original query by a non-empty suffix (so the original is a strict
prefix). -/
theorem rewrite_query_default_branch (query : String) (attempt : Int) :
    (attempt ≠ 1 → attempt ≠ 2 →
      rewrite_query query attempt = query ++ " methodology results figures tables") ∧
    ∃ s : String, s ≠ "" ∧ rewrite_query query attempt = query ++ s := by
  refine ⟨fun h1 h2 => by simp [rewrite_query, h1, h2], ?_⟩
  by_cases h1 : attempt = 1
  · exact ⟨" detailed explanation", by decide, by simp [rewrite_query, h1]⟩
  by_cases h2 : attempt = 2
  · exact ⟨" research paper", by decide, by simp [rewrite_query, h1, h2]⟩
  exact ⟨" methodology results figures tables", by decide, by simp [rewrite_query, h1, h2]⟩

/-- C10 witness: attempt 0 (an out-of-range value) takes the default
branch and strictly extends the query. -/
theorem rewrite_query_default_branch_witness :
    (0 : Int) ≠ 1 ∧ (0 : Int) ≠ 2 ∧
    rewrite_query "cat" 0 = "cat" ++ " methodology results figures tables" := by
  exact ⟨by decide, by decide,
    (rewrite_query_default_branch "cat" 0).1 (by decide) (by decide)⟩

/-- When the planner keeps choosing `hybrid`, every loop round appends one
`hybrid` entry with an incremented step index and no reflection occurs. -/
theorem run_agentic_steps_hybrid (query : String) (hq : plan query = Strategy.hybrid) :
    ∀ (fuel step : Nat) (mem : List MemEntry),
      run_agentic_steps query fuel step mem =
        mem ++ (List.range fuel).map (fun i => ⟨step + i + 1, Strategy.hybrid⟩) := by
  intro fuel
  induction fuel with
  | zero => intro step mem; simp [run_agentic_steps]
  | succ k ih =>
    intro step mem
    rw [run_agentic_steps]
    simp only [hq, ne_eq, not_true_eq_false, if_false, ite_false]
    rw [ih]
    rw [List.range_succ_eq_map, List.map_cons, List.map_map, List.append_assoc]
    simp only [List.singleton_append, Nat.add_zero]
    have hmap : ∀ i ∈ List.range k,
        (fun i => ({ step := step + 1 + i + 1, strategy := Strategy.hybrid } : MemEntry)) i =
          ((fun i => ({ step := step + i + 1, strategy := Strategy.hybrid } : MemEntry)) ∘
            Nat.succ) i := by
      intro i _
      simp only [Function.comp_apply]
      congr 1
      omega
    rw [List.map_congr_left hmap]

/-- C3: with the default budget of 2 steps, a query the planner routes to
`table`, `figure` or `semantic` leaves a trace of exactly two entries, the
second always `hybrid` with the same step index 1 as the first, and the
loop stops there; a query routed directly to `hybrid` gets no reflection
entry (each planner round appends a single `hybrid` entry with a fresh
step index). -/
theorem agentic_trace_spec (query : String) (maxSteps : Nat) (h : 1 ≤ maxSteps) :
    (plan query ≠ Strategy.hybrid →
      run_agentic_retrieval query maxSteps = [⟨1, plan query⟩, ⟨1, Strategy.hybrid⟩]) ∧
    (plan query = Strategy.hybrid →
      run_agentic_retrieval query maxSteps =
        (List.range maxSteps).map (fun i => ⟨i + 1, Strategy.hybrid⟩)) := by
  constructor
  · intro hq
    obtain ⟨k, rfl⟩ : ∃ k, maxSteps = k + 1 := ⟨maxSteps - 1, by omega⟩
    rw [run_agentic_retrieval, run_agentic_steps]
    simp only [hq, ne_eq, not_false_eq_true, if_true, ite_true]
    simp
  · intro hq
    rw [run_agentic_retrieval, run_agentic_steps_hybrid query hq]
    simp

/-- C3 witness: `"Show the results table"` routes to `table` (trace
`[{1, table}, {1, hybrid}]`), `"hello there"` routes to `hybrid` (trace
`[{1, hybrid}, {2, hybrid}]`), both with the default budget 2. -/
theorem agentic_trace_spec_witness :
    plan "Show the results table" = Strategy.table ∧
    run_agentic_retrieval "Show the results table" 2 =
      [⟨1, Strategy.table⟩, ⟨1, Strategy.hybrid⟩] ∧
    plan "hello there" = Strategy.hybrid ∧
    run_agentic_retrieval "hello there" 2 =
      [⟨1, Strategy.hybrid⟩, ⟨2, Strategy.hybrid⟩] := by
  have ht : plan "Show the results table" = Strategy.table := by decide
  have hh : plan "hello there" = Strategy.hybrid := by decide
  refine ⟨ht, ?_, hh, ?_⟩
  · rw [(agentic_trace_spec "Show the results table" 2 (by decide)).1 (by rw [ht]; decide)]
    rw [ht]
  · rw [(agentic_trace_spec "hello there" 2 (by decide)).2 hh]
    decide

/-! ### C4: hybrid merger deduplication -/

theorem firstDedupFrom_congr :
    ∀ (l : List String) {s t : List String}, (∀ x, x ∈ s ↔ x ∈ t) →
      firstDedupFrom s l = firstDedupFrom t l
  | [], _, _, _ => rfl
  | d :: rest, s, t, h => by
    by_cases hd : d ∈ s
    · rw [firstDedupFrom, firstDedupFrom, if_pos hd, if_pos ((h d).mp hd)]
      exact firstDedupFrom_congr rest h
    · rw [firstDedupFrom, firstDedupFrom, if_neg hd, if_neg (fun c => hd ((h d).mpr c))]
      exact congrArg (d :: ·) (firstDedupFrom_congr rest (fun x => by simp [h x]))

theorem mem_firstDedupFrom :
    ∀ (l : List String) (s : List String) (x : String),
      x ∈ firstDedupFrom s l ↔ x ∈ l ∧ x ∉ s
  | [], s, x => by simp [firstDedupFrom]
  | d :: rest, s, x => by
    by_cases hd : d ∈ s
    · rw [firstDedupFrom, if_pos hd, mem_firstDedupFrom rest]
      constructor
      · rintro ⟨hx, hxs⟩; exact ⟨List.mem_cons_of_mem _ hx, hxs⟩
      · rintro ⟨hx, hxs⟩
        rcases List.mem_cons.mp hx with rfl | hx
        · exact absurd hd hxs
        · exact ⟨hx, hxs⟩
    · rw [firstDedupFrom, if_neg hd]
      rw [List.mem_cons, mem_firstDedupFrom rest]
      constructor
      · rintro (rfl | ⟨hx, hxs⟩)
        · exact ⟨List.mem_cons_self _ _, hd⟩
        · exact ⟨List.mem_cons_of_mem _ hx, fun c => hxs (List.mem_cons_of_mem _ c)⟩
      · rintro ⟨hx, hxs⟩
        rcases List.mem_cons.mp hx with rfl | hx
        · exact Or.inl rfl
        · by_cases hxd : x = d
          · exact Or.inl hxd
          · exact Or.inr ⟨hx, fun c => by
              rcases List.mem_cons.mp c with h1 | h1
              · exact hxd h1
              · exact hxs h1⟩

theorem nodup_firstDedupFrom :
    ∀ (l s : List String), (firstDedupFrom s l).Nodup
  | [], s => by simp [firstDedupFrom]
  | d :: rest, s => by
    by_cases hd : d ∈ s
    · rw [firstDedupFrom, if_pos hd]; exact nodup_firstDedupFrom rest s
    · rw [firstDedupFrom, if_neg hd]
      refine List.Nodup.cons ?_ (nodup_firstDedupFrom rest (d :: s))
      intro hmem
      exact ((mem_firstDedupFrom rest (d :: s) d).mp hmem).2 (List.mem_cons_self _ _)

theorem insertUnique_of_mem {acc : List (String × Meta)} {p : String × Meta}
    (h : p.1 ∈ acc.map Prod.fst) : insertUnique acc p = acc := by
  rw [insertUnique, if_pos]
  rw [List.any_eq_true]
  rcases List.mem_map.mp h with ⟨q, hq, hq1⟩
  exact ⟨q, hq, by simp [hq1]⟩

theorem insertUnique_of_not_mem {acc : List (String × Meta)} {p : String × Meta}
    (h : p.1 ∉ acc.map Prod.fst) : insertUnique acc p = acc ++ [p] := by
  rw [insertUnique, if_neg]
  rw [List.any_eq_true]
  rintro ⟨q, hq, hq1⟩
  exact h (List.mem_map.mpr ⟨q, hq, by simpa using hq1⟩)

theorem foldl_insertUnique_map_fst :
    ∀ (l acc : List (String × Meta)),
      (l.foldl insertUnique acc).map Prod.fst =
        acc.map Prod.fst ++ firstDedupFrom (acc.map Prod.fst) (l.map Prod.fst)
  | [], acc => by simp [firstDedupFrom]
  | p :: l, acc => by
    rw [List.foldl_cons, List.map_cons]
    by_cases hp : p.1 ∈ acc.map Prod.fst
    · rw [insertUnique_of_mem hp, firstDedupFrom, if_pos hp]
      exact foldl_insertUnique_map_fst l acc
    · rw [insertUnique_of_not_mem hp, firstDedupFrom, if_neg hp]
      rw [foldl_insertUnique_map_fst l (acc ++ [p])]
      simp only [List.map_append, List.map_cons, List.map_nil]
      rw [firstDedupFrom_congr (l.map Prod.fst)
        (s := acc.map Prod.fst ++ [p.1]) (t := p.1 :: acc.map Prod.fst) (by intro x; simp; tauto)]
      simp

theorem foldl_insertUnique_find :
    ∀ (l acc : List (String × Meta)) (p : String × Meta),
      p ∈ l.foldl insertUnique acc →
        p ∈ acc ∨ (p.1 ∉ acc.map Prod.fst ∧ l.find? (fun q => q.1 = p.1) = some p)
  | [], acc, p, h => Or.inl (by simpa using h)
  | p0 :: l, acc, p, h => by
    rw [List.foldl_cons] at h
    rcases foldl_insertUnique_find l (insertUnique acc p0) p h with hin | ⟨hnot, hfind⟩
    · by_cases hp0 : p0.1 ∈ acc.map Prod.fst
      · rw [insertUnique_of_mem hp0] at hin
        exact Or.inl hin
      · rw [insertUnique_of_not_mem hp0] at hin
        rcases List.mem_append.mp hin with hin | hin
        · exact Or.inl hin
        · right
          rcases List.mem_singleton.mp hin with rfl
          exact ⟨hp0, List.find?_cons_of_pos _ (by simp)⟩
    · right
      have hacc : p.1 ∉ acc.map Prod.fst := by
        intro c
        apply hnot
        by_cases hp0 : p0.1 ∈ acc.map Prod.fst
        · rwa [insertUnique_of_mem hp0]
        · rw [insertUnique_of_not_mem hp0, List.map_append]
          exact List.mem_append_left _ c
      have hne : p0.1 ≠ p.1 := by
        intro c
        apply hnot
        by_cases hp0 : p0.1 ∈ acc.map Prod.fst
        · rw [insertUnique_of_mem hp0]; rw [← c]; exact hp0
        · rw [insertUnique_of_not_mem hp0, List.map_append]
          exact List.mem_append_right _ (by simp [c])
      refine ⟨hacc, ?_⟩
      rw [List.find?_cons_of_neg _ (by simp [hne])]
      exact hfind

theorem zip_map_fst_snd :
    ∀ (l : List ((String × Meta))), (l.map Prod.fst).zip (l.map Prod.snd) = l
  | [] => rfl
  | p :: l => by rw [List.map_cons, List.map_cons, List.zip_cons_cons, zip_map_fst_snd l]

theorem join_zip :
    ∀ (L : List (List String × List Meta)), (∀ p ∈ L, p.1.length = p.2.length) →
      ((L.map Prod.fst).flatten).zip ((L.map Prod.snd).flatten) =
        (L.map (fun p => p.1.zip p.2)).flatten
  | [], _ => rfl
  | p :: L, h => by
    rw [List.map_cons, List.map_cons, List.map_cons, List.flatten_cons, List.flatten_cons,
      List.flatten_cons]
    rw [List.zip_append (h p (List.mem_cons_self _ _))]
    rw [join_zip L (fun q hq => h q (List.mem_cons_of_mem _ hq))]

/-- C4: for every list of query variants with well-formed (parallel-array)
search results, the hybrid merger returns each distinct document content
exactly once, in first-seen order across variants, with length equal to
the number of distinct contents, and pairs each document with the metadata
of the first occurrence of that content in variant order. -/
theorem hybrid_merge_spec (collection : Collection) (qs : List String) (top_k : Nat)
    (hlen : ∀ q ∈ qs,
      (collection q top_k).documents.length = (collection q top_k).metadatas.length) :
    (hybrid_retrieve collection qs top_k).1 =
        firstDedup ((qs.map (fun q => (collection q top_k).documents)).flatten) ∧
    (hybrid_retrieve collection qs top_k).1.Nodup ∧
    (hybrid_retrieve collection qs top_k).1.length =
        ((qs.map (fun q => (collection q top_k).documents)).flatten).toFinset.card ∧
    (∀ p ∈ (hybrid_retrieve collection qs top_k).1.zip (hybrid_retrieve collection qs top_k).2,
      ((qs.map (fun q =>
          ((collection q top_k).documents).zip ((collection q top_k).metadatas))).flatten).find?
        (fun r => r.1 = p.1) = some p) := by
  have hjoin :
      ((qs.map (fun q => (collection q top_k).documents)).flatten).zip
          ((qs.map (fun q => (collection q top_k).metadatas)).flatten) =
        (qs.map (fun q =>
          ((collection q top_k).documents).zip ((collection q top_k).metadatas))).flatten := by
    have := join_zip (qs.map (fun q => ((collection q top_k).documents,
      (collection q top_k).metadatas)))
      (by
        intro p hp
        rcases List.mem_map.mp hp with ⟨q, hq, rfl⟩
        exact hlen q hq)
    simpa [List.map_map, Function.comp] using this
  have hfst :
      ((qs.map (fun q =>
          ((collection q top_k).documents).zip ((collection q top_k).metadatas))).flatten).map
        Prod.fst = (qs.map (fun q => (collection q top_k).documents)).flatten := by
    rw [List.map_flatten, List.map_map]
    congr 1
    apply List.map_congr_left
    intro q hq
    exact List.map_fst_zip _ _ (le_of_eq (hlen q hq))
  have hout1 :
      (hybrid_retrieve collection qs top_k).1 =
        firstDedup ((qs.map (fun q => (collection q top_k).documents)).flatten) := by
    show ((_ : List (String × Meta)).foldl insertUnique []).map Prod.fst = _
    rw [hjoin]
    rw [foldl_insertUnique_map_fst]
    rw [firstDedup, ← hfst]
    simp
  refine ⟨hout1, ?_, ?_, ?_⟩
  · rw [hout1]
    exact nodup_firstDedupFrom _ _
  · rw [hout1, firstDedup]
    rw [← List.toFinset_card_of_nodup (nodup_firstDedupFrom _ [])]
    apply congrArg
    apply Finset.ext
    intro x
    rw [List.mem_toFinset, List.mem_toFinset, mem_firstDedupFrom]
    simp
  · intro p hp
    have hzip : (hybrid_retrieve collection qs top_k).1.zip
        (hybrid_retrieve collection qs top_k).2 =
        (((qs.map (fun q => (collection q top_k).documents)).flatten).zip
          ((qs.map (fun q => (collection q top_k).metadatas)).flatten)).foldl insertUnique [] :=
      zip_map_fst_snd _
    rw [hzip, hjoin] at hp
    rcases foldl_insertUnique_find _ [] p hp with hin | ⟨_, hfind⟩
    · simp at hin
    · exact hfind

/-- Concrete two-variant backend for the C4 witness: the two variants
overlap on document "b", with different metadata. -/
def cTwoVariants : Collection := fun q _ =>
  if q = "q1" then ⟨["a", "b"], [[("src", "1")], [("src", "2")]]⟩
  else ⟨["b", "c"], [[("src", "3")], [("src", "4")]]⟩

/-- C4 witness: on two overlapping variants the merged output is
`["a", "b", "c"]` (three distinct contents, first-seen order) and "b"
keeps the metadata of the first variant. -/
theorem hybrid_merge_spec_witness :
    (hybrid_retrieve cTwoVariants ["q1", "q2"] 8).1 = ["a", "b", "c"] ∧
    (hybrid_retrieve cTwoVariants ["q1", "q2"] 8).2 =
      [[("src", "1")], [("src", "2")], [("src", "4")]] := by
  constructor
  · rw [(hybrid_merge_spec cTwoVariants ["q1", "q2"] 8 (by decide)).1]
    decide
  · decide

/-! ### C5: filtered-search fallback -/

/-- Backend whose filtered search succeeds with zero results while the
unfiltered search would return a document. -/
def cFilteredEmpty : CollectionE := fun _ _ f =>
  match f with
  | some _ => Except.ok ⟨[], []⟩
  | none => Except.ok ⟨["doc"], [[]]⟩

/-- Backend whose filtered search raises while the unfiltered search
returns a document. -/
def cFilteredError : CollectionE := fun _ _ f =>
  match f with
  | some _ => Except.error "boom"
  | none => Except.ok ⟨["doc"], [[]]⟩

/-- C5 counterexample: a filtered search that *succeeds with no results*
is not retried without filters — `adaptive_retrieve` returns the empty
result even though the unfiltered call would return a document, so the
claim's "fails **or returns no results**" retry condition is false on the
code. -/
theorem adaptive_retrieve_no_retry_on_empty :
    cFilteredEmpty "q" 8 (some [("content_type", "table")]) = Except.ok ⟨[], []⟩ ∧
    cFilteredEmpty "q" 8 none = Except.ok ⟨["doc"], [[]]⟩ ∧
    adaptive_retrieve cFilteredEmpty "q" [("content_type", "table")] 8 = Except.ok ⟨[], []⟩ ∧
    adaptive_retrieve cFilteredEmpty "q" [("content_type", "table")] 8 ≠
      cFilteredEmpty "q" 8 none := by
  refine ⟨rfl, rfl, rfl, ?_⟩
  intro h
  simp [adaptive_retrieve, cFilteredEmpty] at h

/-- C5 amended: only a filtered search that *raises* is retried without
filters; a successful filtered call is returned as-is even when it holds
zero results (and the merge in hybrid_retrieve performs no per-variant
error handling at all). -/
theorem adaptive_retrieve_fallback_spec (collection : CollectionE) (query : String)
    (filters : Filters) (top_k : Nat) :
    (∀ r, collection query top_k (some filters) = Except.ok r →
        adaptive_retrieve collection query filters top_k = Except.ok r) ∧
    (∀ e, collection query top_k (some filters) = Except.error e →
        adaptive_retrieve collection query filters top_k = collection query top_k none) := by
  constructor
  · intro r hr
    simp [adaptive_retrieve, hr]
  · intro e he
    simp [adaptive_retrieve, he]

/-- C5 amended witness: the empty-but-successful filtered search is kept;
the raising filtered search falls back to the unfiltered call. -/
theorem adaptive_retrieve_fallback_spec_witness :
    adaptive_retrieve cFilteredEmpty "q" [] 8 = Except.ok ⟨[], []⟩ ∧
    adaptive_retrieve cFilteredError "q" [] 8 = cFilteredError "q" 8 none :=
  ⟨(adaptive_retrieve_fallback_spec cFilteredEmpty "q" [] 8).1 ⟨[], []⟩ rfl,
   (adaptive_retrieve_fallback_spec cFilteredError "q" [] 8).2 "boom" rfl⟩

/-! ## src/retrieval/reranker.py and src/retrieval/cross_encoder_reranker.py

The external scorers (sentence-transformer cosine similarity, cross-encoder
`model.predict`) are abstracted as a relevance function into an arbitrary
linearly ordered type; Python's stable `sorted(..., key=score, reverse=True)`
is modelled by a stable descending insertion sort (all stable sorts agree
extensionally, so this is faithful to CPython's Timsort). -/

/-- Embeds `rerank(query, docs)` from src/retrieval/reranker.py.  Note: the
source has no `top_k` parameter here and performs no truncation. -/
def rerank {β : Type} [LinearOrder β] (score : String → String → β) (query : String)
    (docs : List String) : List String :=
  if docs = [] then []
  else docs.insertionSort (fun a b => score query b ≤ score query a)

/-- Embeds `cross_rerank(query, docs, top_k)` from
src/retrieval/cross_encoder_reranker.py: pairwise scores, stable
descending sort, truncation to `top_k`. -/
def cross_rerank {β : Type} [LinearOrder β] (predict : String → String → β) (query : String)
    (docs : List String) (top_k : Nat := 8) : List String :=
  if docs = [] then []
  else (docs.insertionSort (fun a b => predict query b ≤ predict query a)).take top_k

theorem filter_orderedInsert_of_ne {β : Type} [LinearOrder β] (s : String → β) (v : β)
    (a : String) (hv : s a ≠ v) :
    ∀ l : List String,
      (List.orderedInsert (fun x y => s y ≤ s x) a l).filter (fun d => decide (s d = v)) =
        l.filter (fun d => decide (s d = v))
  | [] => by simp [hv]
  | b :: l => by
    by_cases hba : s b ≤ s a
    · rw [List.orderedInsert, if_pos hba]
      simp [List.filter_cons, hv]
    · rw [List.orderedInsert, if_neg hba]
      simp only [List.filter_cons]
      rw [filter_orderedInsert_of_ne s v a hv l]

theorem filter_orderedInsert_of_eq {β : Type} [LinearOrder β] (s : String → β) (a : String) :
    ∀ l : List String,
      (List.orderedInsert (fun x y => s y ≤ s x) a l).filter (fun d => decide (s d = s a)) =
        a :: l.filter (fun d => decide (s d = s a))
  | [] => by simp
  | b :: l => by
    by_cases hba : s b ≤ s a
    · rw [List.orderedInsert, if_pos hba]
      simp [List.filter_cons]
    · rw [List.orderedInsert, if_neg hba]
      have hbv : ¬(s b = s a) := fun c => hba (le_of_eq c)
      simp only [List.filter_cons]
      rw [filter_orderedInsert_of_eq s a l]
      simp [hbv]

theorem filter_insertionSort {β : Type} [LinearOrder β] (s : String → β) (v : β) :
    ∀ l : List String,
      (List.insertionSort (fun x y => s y ≤ s x) l).filter (fun d => decide (s d = v)) =
        l.filter (fun d => decide (s d = v))
  | [] => rfl
  | a :: l => by
    rw [List.insertionSort]
    by_cases hv : s a = v
    · subst hv
      rw [filter_orderedInsert_of_eq s a (List.insertionSort _ l)]
      rw [filter_insertionSort s (s a) l]
      simp [List.filter_cons]
    · rw [filter_orderedInsert_of_ne s v a hv (List.insertionSort _ l)]
      rw [filter_insertionSort s v l]
      simp [List.filter_cons, hv]

/-- C6 counterexample: on nine distinct candidates the embedding-cosine
strategy returns all nine — it truncates to no `topK` (its only caller
would need ≤ 8, the default used by the cross-encoder strategy on the same
input) — so "both strategies … truncated to topK elements" is false. -/
theorem rerank_no_truncation_counterexample :
    (rerank (fun _ _ => (0 : Int)) "q"
        ["d1", "d2", "d3", "d4", "d5", "d6", "d7", "d8", "d9"]).length = 9 ∧
    (cross_rerank (fun _ _ => (0 : Int)) "q"
        ["d1", "d2", "d3", "d4", "d5", "d6", "d7", "d8", "d9"] 8).length = 8 := by
  constructor
  · decide
  · decide

/-- C6 amended: both strategies return `[]` for an empty candidate list
without consulting the scorer (the result is independent of the scorer);
on a non-empty list both produce the stable descending total order (sorted
by score, ties kept in original relative position), the cross-encoder
strategy truncates it to `topK`, and the embedding-cosine strategy returns
it whole (no truncation). -/
theorem rerank_strategies_spec {β : Type} [LinearOrder β] (score : String → String → β)
    (query : String) (docs : List String) (top_k : Nat) (h : docs ≠ []) :
    (∀ f g : String → String → β,
        rerank f query ([] : List String) = [] ∧ cross_rerank g query [] top_k = []) ∧
    (rerank score query docs).Perm docs ∧
    (rerank score query docs).Sorted (fun a b => score query b ≤ score query a) ∧
    (∀ v : β, (rerank score query docs).filter (fun d => decide (score query d = v)) =
        docs.filter (fun d => decide (score query d = v))) ∧
    cross_rerank score query docs top_k = (rerank score query docs).take top_k := by
  refine ⟨fun f g => ⟨by simp [rerank], by simp [cross_rerank]⟩, ?_, ?_, ?_, ?_⟩
  · rw [rerank, if_neg h]
    exact List.perm_insertionSort _ _
  · rw [rerank, if_neg h]
    haveI : IsTotal String (fun a b => score query b ≤ score query a) :=
      ⟨fun a b => le_total (score query b) (score query a)⟩
    haveI : IsTrans String (fun a b => score query b ≤ score query a) :=
      ⟨fun _ _ _ hab hbc => le_trans hbc hab⟩
    exact List.sorted_insertionSort _ _
  · intro v
    rw [rerank, if_neg h]
    exact filter_insertionSort (score query) v docs
  · rw [cross_rerank, if_neg h, rerank, if_neg h]

/-- C6 amended witness: scoring by document length, three candidates are
returned in descending-length order by `rerank`, and `cross_rerank` with
`topK = 2` keeps the first two of that order. -/
theorem rerank_strategies_spec_witness :
    rerank (fun _ d => (d.length : Int)) "q" ["bb", "a", "ccc"] = ["ccc", "bb", "a"] ∧
    cross_rerank (fun _ d => (d.length : Int)) "q" ["bb", "a", "ccc"] 2 = ["ccc", "bb"] := by
  have h := rerank_strategies_spec (fun _ d => (d.length : Int)) "q" ["bb", "a", "ccc"] 2
    (by decide)
  refine ⟨by decide, ?_⟩
  rw [h.2.2.2.2]
  decide

/-! ## src/retrieval/multimodal_router.py -/

/-- Embeds `ModalityType(str, Enum)` from src/retrieval/multimodal_router.py. -/
inductive ModalityType where
  | text
  | image
  | table
  | chart
  | figure
  | mixed
deriving DecidableEq, Repr, Inhabited

/-- Embeds `MultimodalQueryRouter.IMAGE_KEYWORDS`. -/
def IMAGE_KEYWORDS : Finset String :=
  (["image", "figure", "photo", "picture", "diagram", "illustration",
    "screenshot", "visual", "show", "see", "look", "display", "plot",
    "graph", "chart", "visualization", "depicted", "shown"] : List String).toFinset

/-- Embeds `MultimodalQueryRouter.TABLE_KEYWORDS` (the source lists "row" twice;
set semantics collapse it). -/
def TABLE_KEYWORDS : Finset String :=
  (["table", "data", "values", "numbers", "column", "row", "row",
    "spreadsheet", "matrix", "dataset", "statistics", "results",
    "comparison", "benchmark", "metric", "quantitative"] : List String).toFinset

/-- Embeds `MultimodalQueryRouter.TEXT_KEYWORDS`. -/
def TEXT_KEYWORDS : Finset String :=
  (["explain", "what", "how", "why", "definition", "describe",
    "discuss", "state", "mention", "say", "write", "conclude",
    "abstract", "introduction", "section", "paragraph"] : List String).toFinset

/-- Embeds `MultimodalQueryRouter.COMBINED_KEYWORDS`. -/
def COMBINED_KEYWORDS : Finset String :=
  (["summarize", "overview", "comprehensive", "detailed", "all",
    "including", "together", "and", "both", "combine"] : List String).toFinset

/-- Embeds `MultimodalQueryRouter._score_modality(tokens, keywords)`. -/
def score_modality (tokens keywords : Finset String) : ℚ :=
  if keywords = ∅ then 0
  else ((tokens ∩ keywords).card : ℚ) / (keywords.card : ℚ)

/-- The fields of the dict returned by
`MultimodalQueryRouter.analyze_query` that carry decision content. -/
structure QueryAnalysis where
  primary_modality : ModalityType
  secondary_modalities : List ModalityType
  overall_modality : ModalityType
  confidence : ℚ
  combined_intent_score : ℚ
deriving Repr

/-- Embeds `MultimodalQueryRouter.analyze_query(query)` from
src/retrieval/multimodal_router.py.  Python's stable
`sorted(scores.items(), key=score, reverse=True)` over the dict in
insertion order `image, table, text` is modelled by a stable descending
insertion sort of that list. -/
def analyze_query (query : String) : QueryAnalysis :=
  let tokens := pyTokens query
  let scores : List (ModalityType × ℚ) :=
    [(ModalityType.image, score_modality tokens IMAGE_KEYWORDS),
     (ModalityType.table, score_modality tokens TABLE_KEYWORDS),
     (ModalityType.text, score_modality tokens TEXT_KEYWORDS)]
  let combined_score := score_modality tokens COMBINED_KEYWORDS
  let sorted_modalities := scores.insertionSort (fun a b => b.2 ≤ a.2)
  let primary := sorted_modalities.headI.1
  let primary_score := sorted_modalities.headI.2
  let isMixed := 0 < combined_score ∨ primary_score < 1 / 2
  { primary_modality := primary
    secondary_modalities :=
      if isMixed then (sorted_modalities.tail.filter (fun m => 0 < m.2)).map Prod.fst
      else (sorted_modalities.tail.filter (fun m => 3 / 10 < m.2)).map Prod.fst
    overall_modality := if isMixed then ModalityType.mixed else primary
    confidence := max primary_score combined_score
    combined_intent_score := combined_score }

/-- C7: a query whose tokens match no keyword in any modality vocabulary
(including the combined-intent one) gets confidence exactly 0 and primary
modality `image`, the first of the canonical `image, table, text`
ordering, by the stable tie-break. -/
theorem classifier_zero_match_spec (query : String)
    (h1 : pyTokens query ∩ IMAGE_KEYWORDS = ∅)
    (h2 : pyTokens query ∩ TABLE_KEYWORDS = ∅)
    (h3 : pyTokens query ∩ TEXT_KEYWORDS = ∅)
    (h4 : pyTokens query ∩ COMBINED_KEYWORDS = ∅) :
    (analyze_query query).confidence = 0 ∧
    (analyze_query query).primary_modality = ModalityType.image := by
  have hsc : ∀ K : Finset String, pyTokens query ∩ K = ∅ → K ≠ ∅ →
      score_modality (pyTokens query) K = 0 := by
    intro K hK hKne
    rw [score_modality, if_neg hKne, hK]
    simp
  have s1 := hsc IMAGE_KEYWORDS h1 (by decide)
  have s2 := hsc TABLE_KEYWORDS h2 (by decide)
  have s3 := hsc TEXT_KEYWORDS h3 (by decide)
  have s4 := hsc COMBINED_KEYWORDS h4 (by decide)
  have hsort :
      ([(ModalityType.image, (0 : ℚ)), (ModalityType.table, 0),
        (ModalityType.text, 0)]).insertionSort (fun a b => b.2 ≤ a.2) =
        [(ModalityType.image, 0), (ModalityType.table, 0), (ModalityType.text, 0)] := by
    simp [List.insertionSort, List.orderedInsert]
  constructor
  · simp only [analyze_query, s1, s2, s3, s4, hsort]
    simp
  · simp only [analyze_query, s1, s2, s3, s4, hsort]
    simp [List.headI]

/-- C7 witness: the all-unknown-token query `"zzz"` scores 0 everywhere
and is classified `image` with confidence 0. -/
theorem classifier_zero_match_spec_witness :
    pyTokens "zzz" ∩ IMAGE_KEYWORDS = ∅ ∧
    pyTokens "zzz" ∩ TABLE_KEYWORDS = ∅ ∧
    pyTokens "zzz" ∩ TEXT_KEYWORDS = ∅ ∧
    pyTokens "zzz" ∩ COMBINED_KEYWORDS = ∅ ∧
    (analyze_query "zzz").confidence = 0 ∧
    (analyze_query "zzz").primary_modality = ModalityType.image := by
  refine ⟨by decide, by decide, by decide, by decide, ?_, ?_⟩
  · exact (classifier_zero_match_spec "zzz" (by decide) (by decide) (by decide) (by decide)).1
  · exact (classifier_zero_match_spec "zzz" (by decide) (by decide) (by decide) (by decide)).2

/-! ## src/retrieval/multimodal_pipeline.py -/

/-- One registered image (an entry of `all_embeddings['images']`):
mandatory `path`, optional `filename`/`page`, optional CLIP embedding. -/
structure ImgData where
  path : String
  filename : Option String
  page : Option String
  embedding : Option (List ℚ)
deriving DecidableEq, Repr

/-- The dict returned by a successful `vision_gen.analyze_image` call
(caption/description/key_elements may each be missing, `.get` defaults
apply). -/
structure VisionOut where
  caption : Option String
  description : Option String
  key_elements : Option String
  status : String
deriving DecidableEq, Repr

/-- One entry of `_retrieve_images`' result list. -/
structure ImageResult where
  filename : String
  path : String
  page : String
  similarity_score : ℚ
  caption : String
  description : String
  key_elements : String
deriving DecidableEq, Repr

/-- Embeds `np.dot` on embedding vectors. -/
def dot (a b : List ℚ) : ℚ := ((a.zip b).map (fun p => p.1 * p.2)).sum

/-- The per-image loop of `_retrieve_images`: invoke the (fallible)
external vision analysis on each top image in order and build the result
entries; a raised exception aborts the whole traversal (the caller's
`except` then discards everything built so far). -/
def build_image_results (vision : String → Except String VisionOut) :
    List (ImgData × ℚ) → Except String (List ImageResult)
  | [] => Except.ok []
  | p :: rest =>
    match vision p.1.path with
    | Except.error e => Except.error e
    | Except.ok analysis =>
      match build_image_results vision rest with
      | Except.error e => Except.error e
      | Except.ok tail =>
        Except.ok (⟨p.1.filename.getD "unknown", p.1.path, p.1.page.getD "unknown", p.2,
          analysis.caption.getD "No caption", analysis.description.getD "No description",
          analysis.key_elements.getD "None identified"⟩ :: tail)

/-- Embeds `MultimodalRetrievalPipeline._retrieve_images(query, top_k)` from
src/retrieval/multimodal_pipeline.py: embed the query, score each image
with an embedding by dot product, stable-sort descending, take the top-k,
then vision-annotate each; the surrounding `try/except` returns `[]` when
anything in the body raises. -/
def retrieve_images (vision : String → Except String VisionOut)
    (text_embedder : String → List ℚ) (images : List ImgData) (query : String)
    (top_k : Nat) : List ImageResult :=
  if images.isEmpty then []
  else
    let query_embedding := text_embedder query
    let similarities := (images.filter (fun i => i.embedding.isSome)).map
      (fun i => (i, dot query_embedding (i.embedding.getD [])))
    let top_images := (similarities.insertionSort (fun a b => b.2 ≤ a.2)).take top_k
    match build_image_results vision top_images with
    | Except.ok image_results => image_results
    | Except.error _ => []

/-- The image used by the C8 counterexample. -/
def imgOne : ImgData := ⟨"img1.png", some "img1.png", some "3", some [1]⟩

/-- C8 counterexample: when the external vision call *throws* for the one
retrieved image, `_retrieve_images` returns `[]` — the image is dropped
from the candidate set instead of being kept with its filename/page, so
the claim is false for throwing vision failures. -/
theorem retrieve_images_drops_on_vision_error :
    retrieve_images (fun _ => Except.error "vision down") (fun _ => [1]) [imgOne] "q" 3 = [] ∧
    ([imgOne] : List ImgData) ≠ [] := by
  refine ⟨?_, by simp⟩
  simp [retrieve_images, build_image_results, List.insertionSort, List.orderedInsert, imgOne]

theorem build_image_results_ok (v : VisionOut) :
    ∀ l : List (ImgData × ℚ),
      build_image_results (fun _ => Except.ok v) l =
        Except.ok (l.map (fun p =>
          ⟨p.1.filename.getD "unknown", p.1.path, p.1.page.getD "unknown", p.2,
           v.caption.getD "No caption", v.description.getD "No description",
           v.key_elements.getD "None identified"⟩))
  | [] => rfl
  | p :: rest => by
    rw [build_image_results, build_image_results_ok v rest]
    rfl

/-- C8 amended: a vision call that *returns* (with any status, success or
not — the status is never inspected) keeps every retrieved image: the
result has one entry per top-k scored image, each carrying the image's
filename/page/path and the `.get` default strings for any missing
caption/description/key-elements; only a *thrown* vision error makes
`_retrieve_images` return `[]` for the query. -/
theorem retrieve_images_nonthrowing_spec (v : VisionOut) (text_embedder : String → List ℚ)
    (images : List ImgData) (query : String) (top_k : Nat) :
    (retrieve_images (fun _ => Except.ok v) text_embedder images query top_k).length =
      min top_k (images.filter (fun i => i.embedding.isSome)).length ∧
    ∀ r ∈ retrieve_images (fun _ => Except.ok v) text_embedder images query top_k,
      r.caption = v.caption.getD "No caption" ∧
      r.description = v.description.getD "No description" ∧
      r.key_elements = v.key_elements.getD "None identified" ∧
      ∃ i ∈ images, r.filename = i.filename.getD "unknown" ∧
        r.page = i.page.getD "unknown" ∧ r.path = i.path := by
  by_cases hempty : images.isEmpty
  · rw [List.isEmpty_iff] at hempty
    subst hempty
    simp [retrieve_images]
  · have hb : images.isEmpty = false := by
      cases h : images.isEmpty
      · rfl
      · exact absurd h hempty
    have hunfold :
        retrieve_images (fun _ => Except.ok v) text_embedder images query top_k =
          ((((images.filter (fun i => i.embedding.isSome)).map
              (fun i => (i, dot (text_embedder query) (i.embedding.getD [])))).insertionSort
                (fun a b => b.2 ≤ a.2)).take top_k).map (fun p =>
            ⟨p.1.filename.getD "unknown", p.1.path, p.1.page.getD "unknown", p.2,
             v.caption.getD "No caption", v.description.getD "No description",
             v.key_elements.getD "None identified"⟩) := by
      simp only [retrieve_images, hb, Bool.false_eq_true, if_false]
      rw [build_image_results_ok v]
    constructor
    · rw [hunfold, List.length_map, List.length_take, List.length_insertionSort,
        List.length_map]
    · intro r hr
      rw [hunfold] at hr
      rcases List.mem_map.mp hr with ⟨p, hp, rfl⟩
      have hp1 : p ∈ ((images.filter (fun i => i.embedding.isSome)).map
          (fun i => (i, dot (text_embedder query) (i.embedding.getD [])))).insertionSort
            (fun a b => b.2 ≤ a.2) := (List.take_sublist _ _).mem hp
      rw [List.mem_insertionSort] at hp1
      rcases List.mem_map.mp hp1 with ⟨i, hi, rfl⟩
      exact ⟨rfl, rfl, rfl, i, (List.mem_filter.mp hi).1, rfl, rfl, rfl⟩

/-- C8 amended witness: with a vision call that returns a non-success
status and no caption, the single registered image is kept (one result)
and its caption falls back to the default string. -/
theorem retrieve_images_nonthrowing_spec_witness :
    (retrieve_images (fun _ => Except.ok ⟨none, none, none, "error"⟩) (fun _ => [1])
        [imgOne] "q" 3).length = 1 ∧
    ∃ r ∈ retrieve_images (fun _ => Except.ok ⟨none, none, none, "error"⟩) (fun _ => [1])
        [imgOne] "q" 3, r.caption = "No caption" := by
  have h := retrieve_images_nonthrowing_spec ⟨none, none, none, "error"⟩ (fun _ => [1])
    [imgOne] "q" 3
  have hlen : (retrieve_images (fun _ => Except.ok ⟨none, none, none, "error"⟩) (fun _ => [1])
      [imgOne] "q" 3).length = 1 := by
    rw [h.1]
    decide
  refine ⟨hlen, ?_⟩
  obtain ⟨r, hr⟩ := List.exists_mem_of_ne_nil _
    (List.ne_nil_of_length_pos (by rw [hlen]; exact Nat.one_pos))
  exact ⟨r, hr, (h.2 r hr).1⟩

/-- One text result dict of `MultimodalRetrievalPipeline.retrieve`
(field `content`). -/
structure TextResult where
  content : String
deriving Repr

/-- One table result dict (fields `page` and `content`). -/
structure TableResult where
  page : String
  content : String
deriving Repr

/-- The `retrieved` dict handed to `generate_multimodal_answer`. -/
structure Retrieved where
  text_results : List TextResult
  image_results : List ImageResult
  table_results : List TableResult
deriving Repr

/-- Python `s[:n]` character slicing. -/
def pySlice (s : String) (n : Nat) : String := ⟨s.data.take n⟩

/-- The `context_parts` list built by
`MultimodalRetrievalPipeline.generate_multimodal_answer`
(src/retrieval/multimodal_pipeline.py); the context string handed to the
generator is `"\n".join` of this list. -/
def build_context_parts (retrieved : Retrieved) (use_images : Bool) : List String :=
  let parts : List String := []
  let parts := if retrieved.text_results.isEmpty then parts
    else parts ++ ["TEXT CONTEXT:"] ++ (retrieved.text_results.take 3).map (fun t => t.content)
  let parts := if use_images && !retrieved.image_results.isEmpty then
      parts ++ ["\nIMAGE CONTEXT:"] ++ (retrieved.image_results.map (fun img =>
        ["Figure (Page " ++ img.page ++ "):",
         "  Caption: " ++ img.caption,
         "  Description: " ++ img.description,
         "  Key elements: " ++ img.key_elements])).flatten
    else parts
  let parts := if retrieved.table_results.isEmpty then parts
    else parts ++ ["\nTABLE CONTEXT:"] ++ ((retrieved.table_results.take 2).map (fun t =>
      ["Table (Page " ++ t.page ++ "):", pySlice t.content 500])).flatten
  parts

/-- The claim's text block, transcribed from the spec's wording: all
included text content, prefixed by the fixed header literal. -/
def specTextBlock (r : Retrieved) : List String :=
  if r.text_results.isEmpty then []
  else "TEXT CONTEXT:" :: (r.text_results.take 3).map (fun t => t.content)

/-- The claim's image block, transcribed from the spec's wording. -/
def specImageBlock (r : Retrieved) : List String :=
  if r.image_results.isEmpty then []
  else "\nIMAGE CONTEXT:" :: (r.image_results.map (fun img =>
    ["Figure (Page " ++ img.page ++ "):",
     "  Caption: " ++ img.caption,
     "  Description: " ++ img.description,
     "  Key elements: " ++ img.key_elements])).flatten

/-- The claim's table block, transcribed from the spec's wording: at most
the first 2 tables, each truncated to its first 500 characters. -/
def specTableBlock (r : Retrieved) : List String :=
  if r.table_results.isEmpty then []
  else "\nTABLE CONTEXT:" :: ((r.table_results.take 2).map (fun t =>
    ["Table (Page " ++ t.page ++ "):", pySlice t.content 500])).flatten

/-- C9: the fusion context is exactly text block, then image block, then
table block, each prefixed by its fixed header literal; at most the first
2 tables (within the claim's "2–3") are included and each table's content
is cut to its first 500 characters. -/
theorem fusion_context_order_spec (retrieved : Retrieved) :
    build_context_parts retrieved true =
      specTextBlock retrieved ++ specImageBlock retrieved ++ specTableBlock retrieved ∧
    (retrieved.table_results.take 2).length ≤ 2 ∧
    ∀ t ∈ retrieved.table_results.take 2, (pySlice t.content 500).length ≤ 500 := by
  refine ⟨?_, ?_, ?_⟩
  · simp only [build_context_parts, specTextBlock, specImageBlock, specTableBlock,
      Bool.true_and]
    by_cases h1 : retrieved.text_results.isEmpty <;>
      by_cases h2 : retrieved.image_results.isEmpty <;>
        by_cases h3 : retrieved.table_results.isEmpty <;>
          simp [h1, h2, h3]
  · rw [List.length_take]
    exact min_le_left _ _
  · intro t _
    show (⟨t.content.data.take 500⟩ : String).length ≤ 500
    show (t.content.data.take 500).length ≤ 500
    rw [List.length_take]
    exact min_le_left _ _

/-- A 600-character table for the C9 witness. -/
def tableEx : TableResult := ⟨"7", ⟨List.replicate 600 'x'⟩⟩

/-- A concrete retrieval result for the C9 witness. -/
def retrievedEx : Retrieved := ⟨[⟨"hello text"⟩], [], [tableEx]⟩

/-- C9 witness: on a concrete retrieval result with one text chunk and one
600-character table, the context decomposes into the three blocks in order
and the included table content is cut to at most 500 characters. -/
theorem fusion_context_order_spec_witness :
    build_context_parts retrievedEx true =
      specTextBlock retrievedEx ++ specImageBlock retrievedEx ++ specTableBlock retrievedEx ∧
    tableEx ∈ retrievedEx.table_results.take 2 ∧
    (pySlice tableEx.content 500).length ≤ 500 := by
  have h := fusion_context_order_spec retrievedEx
  have hmem : tableEx ∈ retrievedEx.table_results.take 2 := by
    simp [retrievedEx]
  exact ⟨h.1, hmem, h.2.2 tableEx hmem⟩

/-! ## src/retrieval/self_improving_pipeline.py -/

/-- One retrieved chunk (text or image) of the self-improving pipeline. -/
structure Chunk where
  text : String
  metadata : Meta
deriving DecidableEq, Repr

/-- Python `meta.get(key)`. -/
def metaGet (m : Meta) (k : String) : Option String :=
  (m.find? (fun p => p.1 = k)).map Prod.snd

/-- Outcome record of `run_self_improving_retrieval`, with the list of
query texts actually passed to `collection.query` recorded in
`issued_queries` so the retrieval control flow can be examined. -/
structure SIOutcome where
  query_used : String
  original_query : String
  text_chunks : List Chunk
  image_chunks : List Chunk
  issued_queries : List String
deriving DecidableEq, Repr

/-- Embeds `run_self_improving_retrieval(collection, query, max_attempts, ...)`
from src/retrieval/self_improving_pipeline.py, restricted to its
retrieval control flow: despite its name and parameters, the source
performs a single `collection.query(query_texts=[query], n_results=15)`
call and splits the first 10 documents into text/image chunks — it never
reads `max_attempts`, never calls `evaluate_retrieval`, and never calls
`rewrite_query`.  The vision annotation of image chunks (which neither
adds nor drops a chunk) and the final answer generation are elided. -/
def run_self_improving_retrieval (collection : Collection) (query : String)
    (max_attempts : Nat := 3) : SIOutcome :=
  let raw := collection query 15
  let all_docs := raw.documents
  let all_metadatas := raw.metadatas
  let isImage := fun (p : Nat × String) =>
    (metaGet (all_metadatas.getD p.1 []) "modality" == some "image") ||
      containsSub p.2.data "Image:".data
  let indexed := (all_docs.take 10).enum
  { query_used := query
    original_query := query
    text_chunks := (indexed.filter (fun p => !isImage p)).map
      (fun p => ⟨p.2, all_metadatas.getD p.1 []⟩)
    image_chunks := (indexed.filter (fun p => isImage p)).map
      (fun p => ⟨p.2, all_metadatas.getD p.1 []⟩)
    issued_queries := [query] }

/-- Backend for the C1 failing input: every search returns one document
with no lexical overlap with the query, so the Critic — had it been
consulted — would decide `retry`. -/
def cNoOverlap : Collection := fun _ _ => ⟨["xyz"], [[]]⟩

/-- C1: the code contradicts the claimed loop.  On a query whose first
attempt's candidates the Critic scores 0 (decision `retry`) and with
`max_attempts = 3`, the pipeline still issues exactly one search, with
the original — never a rewritten — query text, and its whole outcome is
independent of `max_attempts`; no second attempt ever happens. -/
theorem self_improving_single_attempt :
    evaluate_retrieval "cat" ["xyz"] = ⟨0, "retry"⟩ ∧
    (run_self_improving_retrieval cNoOverlap "cat" 3).issued_queries = ["cat"] ∧
    (run_self_improving_retrieval cNoOverlap "cat" 3).query_used = "cat" ∧
    rewrite_query "cat" 2 ∉ (run_self_improving_retrieval cNoOverlap "cat" 3).issued_queries ∧
    (∀ m : Nat, run_self_improving_retrieval cNoOverlap "cat" m =
      run_self_improving_retrieval cNoOverlap "cat" 3) := by
  refine ⟨?_, rfl, rfl, by decide, fun m => rfl⟩
  have h1 : (pyTokens "cat" ∩ pyTokens "xyz").card = 0 := by decide
  have h2 : (pyTokens "cat").card = 1 := by decide
  have hfun :
      (fun d => (((pyTokens "cat" ∩ pyTokens d).card : ℚ) / ((pyTokens "cat").card + 1))) =
        lexOverlap "cat" := rfl
  simp only [evaluate_retrieval, hfun]
  rw [if_neg (by simp)]
  have hov : lexOverlap "cat" "xyz" = 0 := by
    rw [lexOverlap, h1, h2]
    norm_num
  simp [hov]
  norm_num

end RAG
